import Mathlib

/-
Verification of the SelfEvolveWeb repository: a shallow embedding of its
virtual file system (VFS), module loader, evolution protocol and BIOS
sanitizer, with theorems settling the frozen claims about them.

The VFS is a JS object mapping absolute paths to source text; we embed it as
an insertion-ordered association list, matching JS object semantics
(spread-copy, in-place overwrite of an existing key, append of a new key,
`delete` removal, `hasOwnProperty` presence test).
-/

namespace SelfEvolveWeb

/-- The virtual file system: path to content, insertion ordered. -/
abbrev VFS := List (String × String)

/-- Reading a path: the first entry carrying that key (JS property read). -/
def vfsGet (vfs : VFS) (p : String) : Option String :=
  (vfs.find? (fun e => decide (e.1 = p))).map (fun e => e.2)

/-- JS `hasOwnProperty`. -/
def vfsHas (vfs : VFS) (p : String) : Bool :=
  vfs.any (fun e => decide (e.1 = p))

/-- JS `newFiles[p] = c` after a spread copy: overwrite in place when the key
exists, append otherwise. -/
def vfsSet (vfs : VFS) (p c : String) : VFS :=
  if vfs.any (fun e => decide (e.1 = p)) then
    vfs.map (fun e => if e.1 = p then (p, c) else e)
  else
    vfs ++ [(p, c)]

/-- JS `delete newFiles[p]`. -/
def vfsDelete (vfs : VFS) (p : String) : VFS :=
  vfs.filter (fun e => decide (¬ e.1 = p))

theorem vfsGet_vfsSet_self (vfs : VFS) (p c : String) :
    vfsGet (vfsSet vfs p c) p = some c := by
  unfold vfsSet
  by_cases hany : vfs.any (fun e => decide (e.1 = p)) = true
  · rw [if_pos hany]
    unfold vfsGet
    induction vfs with
    | nil => simp at hany
    | cons a t ih =>
      by_cases hp : a.1 = p
      · simp [hp]
      · rw [List.map_cons, if_neg hp, List.find?_cons_of_neg _ (by simp [hp])]
        exact ih (by simpa [hp] using hany)
  · rw [if_neg hany]
    unfold vfsGet
    rw [List.find?_append]
    have hnone : vfs.find? (fun e => decide (e.1 = p)) = none := by
      rw [List.find?_eq_none]
      intro x hx hxp
      exact hany (List.any_eq_true.mpr ⟨x, hx, hxp⟩)
    simp [hnone]

theorem vfsGet_vfsSet_ne (vfs : VFS) (p c q : String) (h : q ≠ p) :
    vfsGet (vfsSet vfs p c) q = vfsGet vfs q := by
  unfold vfsSet vfsGet
  by_cases hany : vfs.any (fun e => decide (e.1 = p)) = true
  · rw [if_pos hany]
    clear hany
    induction vfs with
    | nil => simp
    | cons a t ih =>
      by_cases hp : a.1 = p
      · have haq : ¬ a.1 = q := fun hq => h (hq ▸ hp ▸ rfl)
        rw [List.map_cons, if_pos hp,
          List.find?_cons_of_neg _ (by simp [Ne.symm h]),
          List.find?_cons_of_neg _ (by simp [haq])]
        exact ih
      · rw [List.map_cons, if_neg hp]
        by_cases haq : a.1 = q
        · rw [List.find?_cons_of_pos _ (by simp [haq]),
            List.find?_cons_of_pos _ (by simp [haq])]
        · rw [List.find?_cons_of_neg _ (by simp [haq]),
            List.find?_cons_of_neg _ (by simp [haq])]
          exact ih
  · rw [if_neg hany, List.find?_append]
    have hsingle : ([(p, c)] : VFS).find? (fun e => decide (e.1 = q)) = none := by
      simp [Ne.symm h]
    cases hv : vfs.find? (fun e => decide (e.1 = q)) <;> simp [hsingle]

theorem vfsGet_vfsDelete_self (vfs : VFS) (p : String) :
    vfsGet (vfsDelete vfs p) p = none := by
  unfold vfsGet vfsDelete
  rw [Option.map_eq_none', List.find?_eq_none]
  intro x hx
  have := List.of_mem_filter hx
  simp only [decide_not, Bool.not_eq_true', decide_eq_false_iff_not] at this
  simp [this]

theorem vfsGet_vfsDelete_ne (vfs : VFS) (p q : String) (h : q ≠ p) :
    vfsGet (vfsDelete vfs p) q = vfsGet vfs q := by
  unfold vfsGet vfsDelete
  induction vfs with
  | nil => simp
  | cons a t ih =>
    by_cases hp : a.1 = p
    · have haq : ¬ a.1 = q := fun hq => h (hq ▸ hp ▸ rfl)
      rw [List.filter_cons_of_neg (by simp [hp]),
        List.find?_cons_of_neg _ (by simp [haq])]
      exact ih
    · rw [List.filter_cons_of_pos (by simp [hp])]
      by_cases haq : a.1 = q
      · rw [List.find?_cons_of_pos _ (by simp [haq]),
          List.find?_cons_of_pos _ (by simp [haq])]
      · rw [List.find?_cons_of_neg _ (by simp [haq]),
          List.find?_cons_of_neg _ (by simp [haq])]
        exact ih

theorem vfsDelete_of_not_has (vfs : VFS) (p : String) (h : vfsHas vfs p = false) :
    vfsDelete vfs p = vfs := by
  unfold vfsDelete
  rw [List.filter_eq_self]
  intro e he
  unfold vfsHas at h
  have : ¬ e.1 = p := by
    intro hep
    have : vfs.any (fun e => decide (e.1 = p)) = true :=
      List.any_eq_true.mpr ⟨e, he, by simp [hep]⟩
    rw [h] at this
    exact Bool.false_ne_true this
  simp [this]

theorem vfsHas_vfsDelete_self (vfs : VFS) (p : String) :
    vfsHas (vfsDelete vfs p) p = false := by
  unfold vfsHas vfsDelete
  rw [Bool.eq_false_iff]
  intro hcontra
  obtain ⟨e, he, hep⟩ := List.any_eq_true.mp hcontra
  have := List.of_mem_filter he
  simp only [decide_not, Bool.not_eq_true', decide_eq_false_iff_not] at this
  exact this (by simpa using hep)

/-! ## The evolution protocol (single-target)

From the bootloader source embedded in the repository: `evolveCode` validates
the generative service response, and `handleEvolveRequest` applies the
resulting action to the project files. -/

/-- The structured response of the generative service: an action tag, a file
path, and code (the `Evolution` interface of the bootloader). -/
structure Evolution where
  action : String
  filePath : String
  code : String
deriving DecidableEq

/-- The bootloader normalizes a DELETE response: `evolution.code = ''`. -/
def normalizeDeleteCode (e : Evolution) : Evolution :=
  if e.action = "DELETE" then { e with code := "" } else e

/-- Response validation inside `evolveCode`: an absent or empty response text
is an error; a text that does not parse is a JSON error; otherwise the parsed
evolution with DELETE code normalized. -/
def evolveCode (respText : Option String) (parsed : Option Evolution) :
    Except String Evolution :=
  match respText with
  | none => Except.error "Received an empty response from the AI."
  | some s =>
    if s = "" then Except.error "Received an empty response from the AI."
    else
      match parsed with
      | none => Except.error "Unexpected end of JSON input"
      | some e => Except.ok (normalizeDeleteCode e)

/-- The switch of `handleEvolveRequest`: UPDATE and CREATE fall through to an
upsert, DELETE removes the path, anything else throws. -/
def applyEvolution (vfs : VFS) (e : Evolution) : Except String VFS :=
  if e.action = "UPDATE" ∨ e.action = "CREATE" then
    Except.ok (vfsSet vfs e.filePath e.code)
  else if e.action = "DELETE" then
    Except.ok (vfsDelete vfs e.filePath)
  else
    Except.error ("Unknown action from AI: " ++ e.action)

/-- The try-block of `handleEvolveRequest`: validate the response, then apply
the evolution; the first thrown error aborts the attempt. -/
def evolveAttempt (vfs : VFS) (respText : Option String)
    (parsed : Option Evolution) : Except String VFS :=
  match evolveCode respText parsed with
  | Except.error msg => Except.error msg
  | Except.ok e => applyEvolution vfs e

/-- `handleEvolveRequest` observed at the VFS: the new project files and the
surfaced boot error, if any. On any failure the previous files are kept and
the error message is surfaced via the boot-error state. -/
def handleEvolveRequest (vfs : VFS) (respText : Option String)
    (parsed : Option Evolution) : VFS × Option String :=
  match evolveAttempt vfs respText parsed with
  | Except.ok v => (v, none)
  | Except.error msg => (vfs, some ("Evolution failed: " ++ msg))

/-- C5: an evolution-service response that is empty (absent or empty text),
unparseable, or whose action tag is none of UPDATE, CREATE, DELETE, makes the
evolution operation fail with a surfaced error while the VFS is unchanged. -/
theorem evolve_reject_no_mutation (vfs : VFS) (respText : Option String)
    (parsed : Option Evolution)
    (h : respText = none ∨ respText = some "" ∨ parsed = none ∨
      ∃ e, parsed = some e ∧ e.action ≠ "UPDATE" ∧ e.action ≠ "CREATE" ∧
        e.action ≠ "DELETE") :
    (handleEvolveRequest vfs respText parsed).1 = vfs ∧
    ∃ msg, (handleEvolveRequest vfs respText parsed).2 = some msg := by
  have err :
      ∀ m, evolveAttempt vfs respText parsed = Except.error m →
        (handleEvolveRequest vfs respText parsed).1 = vfs ∧
          ∃ msg, (handleEvolveRequest vfs respText parsed).2 = some msg := by
    intro m hm
    unfold handleEvolveRequest
    rw [hm]
    exact ⟨rfl, _, rfl⟩
  have lift :
      ∀ m, evolveCode respText parsed = Except.error m →
        evolveAttempt vfs respText parsed = Except.error m := by
    intro m hm
    unfold evolveAttempt
    rw [hm]
  rcases h with h | h | h | ⟨e, he, hu, hc, hd⟩
  · subst h
    exact err _ (lift "Received an empty response from the AI." rfl)
  · subst h
    exact err _ (lift "Received an empty response from the AI." (by simp [evolveCode]))
  · subst h
    cases respText with
    | none => exact err _ (lift "Received an empty response from the AI." rfl)
    | some s =>
      by_cases hs : s = ""
      · exact err _
          (lift "Received an empty response from the AI." (by simp [evolveCode, hs]))
      · exact err _ (lift "Unexpected end of JSON input" (by simp [evolveCode, hs]))
  · subst he
    cases respText with
    | none => exact err _ (lift "Received an empty response from the AI." rfl)
    | some s =>
      by_cases hs : s = ""
      · exact err _
          (lift "Received an empty response from the AI." (by simp [evolveCode, hs]))
      · have hok : evolveCode (some s) (some e) = Except.ok e := by
          simp [evolveCode, hs, normalizeDeleteCode, hd]
        have happ : applyEvolution vfs e =
            Except.error ("Unknown action from AI: " ++ e.action) := by
          unfold applyEvolution
          rw [if_neg (by rintro (h1 | h1); exacts [hu h1, hc h1]), if_neg hd]
        refine err ("Unknown action from AI: " ++ e.action) ?_
        unfold evolveAttempt
        rw [hok]
        exact happ

/-- Witness for C5 at a concrete rejected response. -/
theorem evolve_reject_no_mutation_witness :
    (handleEvolveRequest [("/x", "1")] (some "resp")
        (some ⟨"FROB", "/x", "z"⟩)).1 = [("/x", "1")] ∧
    ∃ msg, (handleEvolveRequest [("/x", "1")] (some "resp")
        (some ⟨"FROB", "/x", "z"⟩)).2 = some msg :=
  evolve_reject_no_mutation [("/x", "1")] (some "resp") (some ⟨"FROB", "/x", "z"⟩)
    (Or.inr (Or.inr (Or.inr ⟨⟨"FROB", "/x", "z"⟩, rfl, by decide, by decide, by decide⟩)))

theorem applyEvolution_update (vfs : VFS) (a p c : String)
    (ha : a = "UPDATE" ∨ a = "CREATE") :
    applyEvolution vfs { action := a, filePath := p, code := c } =
      Except.ok (vfsSet vfs p c) := by
  unfold applyEvolution
  rw [if_pos ha]

theorem applyEvolution_delete (vfs : VFS) (p c : String) :
    applyEvolution vfs { action := "DELETE", filePath := p, code := c } =
      Except.ok (vfsDelete vfs p) := by
  show (if ("DELETE" : String) = "UPDATE" ∨ ("DELETE" : String) = "CREATE" then
      Except.ok (vfsSet vfs p c)
    else if ("DELETE" : String) = "DELETE" then Except.ok (vfsDelete vfs p)
    else Except.error ("Unknown action from AI: " ++ "DELETE")) =
      Except.ok (vfsDelete vfs p)
  rw [if_neg (by decide), if_pos rfl]

/-- C6: applying Update or Create of path p with content c upserts exactly p:
afterwards p reads as c and every other path reads as before. -/
theorem update_create_upsert (vfs : VFS) (a p c q : String)
    (ha : a = "UPDATE" ∨ a = "CREATE") :
    applyEvolution vfs { action := a, filePath := p, code := c } =
      Except.ok (vfsSet vfs p c) ∧
    vfsGet (vfsSet vfs p c) p = some c ∧
    (q ≠ p → vfsGet (vfsSet vfs p c) q = vfsGet vfs q) :=
  ⟨applyEvolution_update vfs a p c ha, vfsGet_vfsSet_self vfs p c,
    fun h => vfsGet_vfsSet_ne vfs p c q h⟩

/-- Witness for C6 at a concrete VFS, update of "/x", frame path "/y". -/
theorem update_create_upsert_witness :
    applyEvolution [("/y", "old")] { action := "UPDATE", filePath := "/x", code := "new" } =
      Except.ok (vfsSet [("/y", "old")] "/x" "new") ∧
    vfsGet (vfsSet [("/y", "old")] "/x" "new") "/x" = some "new" ∧
    vfsGet (vfsSet [("/y", "old")] "/x" "new") "/y" = vfsGet [("/y", "old")] "/y" :=
  have h := update_create_upsert [("/y", "old")] "UPDATE" "/x" "new" "/y" (Or.inl rfl)
  ⟨h.1, h.2.1, h.2.2 (by decide)⟩

/-- C7: applying Delete of p removes p and leaves every other path unchanged;
deleting an absent path is a no-op; and a DELETE response has its code
normalized to the empty string on receipt. -/
theorem delete_action_semantics (vfs : VFS) (p q : String) (e : Evolution) :
    applyEvolution vfs { action := "DELETE", filePath := p, code := "" } =
      Except.ok (vfsDelete vfs p) ∧
    vfsGet (vfsDelete vfs p) p = none ∧
    (q ≠ p → vfsGet (vfsDelete vfs p) q = vfsGet vfs q) ∧
    (vfsHas vfs p = false → vfsDelete vfs p = vfs) ∧
    (e.action = "DELETE" → (normalizeDeleteCode e).code = "") := by
  refine ⟨applyEvolution_delete vfs p "", vfsGet_vfsDelete_self vfs p,
    fun h => vfsGet_vfsDelete_ne vfs p q h,
    fun h => vfsDelete_of_not_has vfs p h, fun h => ?_⟩
  unfold normalizeDeleteCode
  rw [if_pos h]

/-- Witness for C7 at a concrete VFS, deleting "/x" and re-deleting "/z". -/
theorem delete_action_semantics_witness :
    vfsGet (vfsDelete [("/x", "1"), ("/y", "2")] "/x") "/x" = none ∧
    vfsGet (vfsDelete [("/x", "1"), ("/y", "2")] "/x") "/y" =
      vfsGet [("/x", "1"), ("/y", "2")] "/y" ∧
    vfsDelete [("/x", "1"), ("/y", "2")] "/z" = [("/x", "1"), ("/y", "2")] ∧
    (normalizeDeleteCode ⟨"DELETE", "/x", "junk"⟩).code = "" :=
  have h := delete_action_semantics [("/x", "1"), ("/y", "2")] "/x" "/y"
    ⟨"DELETE", "/x", "junk"⟩
  have h' := delete_action_semantics [("/x", "1"), ("/y", "2")] "/z" "/y"
    ⟨"DELETE", "/x", "junk"⟩
  ⟨h.2.1, h.2.2.1 (by decide), h'.2.2.2.1 (by decide), h.2.2.2.2 rfl⟩

/-! ## Module resolution: the bootloader's customRequire

From the bootloader source: the importer's directory is joined into a file
URL, the import path is resolved against it with `new URL`, and the resolved
pathname is probed against five candidates in order. -/

/-- Splitting accumulator for `splitSlash`. -/
def splitSlashGo : List Char → List Char → List String
  | acc, [] => [String.mk acc.reverse]
  | acc, c :: cs =>
    if c = '/' then String.mk acc.reverse :: splitSlashGo [] cs
    else splitSlashGo (c :: acc) cs

/-- JS `s.split('/')`: the list of slash-separated pieces, keeping empty
pieces (so a leading slash yields a leading empty piece). -/
def splitSlash (s : String) : List String :=
  splitSlashGo [] s.data

/-- Whether a string starts with a slash (the path-absolute URL case). -/
def startsWithSlash (s : String) : Bool :=
  match s.data with
  | [] => false
  | c :: _ => c = '/'

/-- Segment processing of a path reference against a directory, as the URL
resolver does: a double-dot segment pops the last segment, a single dot is
dropped, and a trailing dot or double-dot leaves a trailing empty segment
(the trailing slash of the pathname). -/
def processSegs (init : List String) : List String → List String
  | [] => init
  | [s] =>
    if s = ".." then init.dropLast ++ [""]
    else if s = "." then init ++ [""]
    else init ++ [s]
  | s :: s2 :: rest =>
    processSegs
      (if s = ".." then init.dropLast else if s = "." then init else init ++ [s])
      (s2 :: rest)

/-- The resolved base path of customRequire: split the importer on slashes,
pop the file name, join into a file URL base, resolve the import path against
it and read the resulting pathname. -/
def resolveBase (importer spec : String) : String :=
  let parts := (splitSlash importer).dropLast
  let dirSegs := if parts.head? = some "" then parts.drop 1 else ([] : List String)
  let outSegs :=
    if startsWithSlash spec then processSegs [] ((splitSlash spec).drop 1)
    else processSegs dirSegs (splitSlash spec)
  "/" ++ String.intercalate "/" outSegs

/-- The five candidate paths customRequire probes, in order: the exact base,
the two extension variants, and the two index variants. -/
def possiblePaths (base : String) : List String :=
  [base, base ++ ".tsx", base ++ ".ts", base ++ "/index.tsx", base ++ "/index.ts"]

/-- The outcome of customRequire's resolution step. -/
inductive ResolveOutcome where
  | capability (name : String)
  | found (path : String)
  | notFound (importer spec base : String)
deriving DecidableEq

/-- The resolution step of customRequire: the react capability name
short-circuits before any VFS lookup; otherwise the first of the five
candidates present in the project files wins, and a miss throws the
module-not-found error carrying importer, import path and resolved base. -/
def customRequireResolve (vfs : VFS) (importer spec : String) : ResolveOutcome :=
  if spec = "react" then ResolveOutcome.capability "react"
  else
    match (possiblePaths (resolveBase importer spec)).find? (fun p => vfsHas vfs p) with
    | some p => ResolveOutcome.found p
    | none => ResolveOutcome.notFound importer spec (resolveBase importer spec)

/-- C1: for a specifier that is no registered capability name, resolution
probes the five ordered candidates of the resolved base: it returns `found p`
exactly when p is the first candidate present in the VFS, and fails with the
module-not-found error exactly when none of the five candidates is present. -/
theorem customRequire_probe_semantics (vfs : VFS) (importer spec : String)
    (h : spec ≠ "react") :
    (∀ p, customRequireResolve vfs importer spec = ResolveOutcome.found p ↔
      ∃ l₁ l₂, possiblePaths (resolveBase importer spec) = l₁ ++ p :: l₂ ∧
        vfsHas vfs p = true ∧ ∀ q ∈ l₁, vfsHas vfs q = false) ∧
    (customRequireResolve vfs importer spec =
        ResolveOutcome.notFound importer spec (resolveBase importer spec) ↔
      ∀ q ∈ possiblePaths (resolveBase importer spec), vfsHas vfs q = false) := by
  unfold customRequireResolve
  rw [if_neg h]
  cases hf : (possiblePaths (resolveBase importer spec)).find? (fun p => vfsHas vfs p) with
  | some p₀ =>
    constructor
    · intro p
      constructor
      · intro hp
        injection hp with h2
        subst h2
        rcases List.find?_eq_some.mp hf with ⟨hp₀, as, bs, heq, hall⟩
        exact ⟨as, bs, heq, hp₀, fun q hq => by simpa using hall q hq⟩
      · rintro ⟨l₁, l₂, heq, hpp, hall⟩
        have hfound :
            (possiblePaths (resolveBase importer spec)).find? (fun p => vfsHas vfs p) =
              some p := by
          rw [List.find?_eq_some]
          exact ⟨hpp, l₁, l₂, heq, fun a ha => by simpa using hall a ha⟩
        rw [hf] at hfound
        injection hfound with h2
        rw [h2]
    · constructor
      · intro hcontra
        exact absurd hcontra (by simp)
      · intro hall
        exfalso
        have hsome := List.find?_some hf
        have hmem := List.mem_of_find?_eq_some hf
        rw [hall p₀ hmem] at hsome
        exact Bool.false_ne_true hsome
  | none =>
    constructor
    · intro p
      constructor
      · intro hp
        exact absurd hp (by simp)
      · rintro ⟨l₁, l₂, heq, hpp, _⟩
        exfalso
        have hmem : p ∈ possiblePaths (resolveBase importer spec) := by
          rw [heq]
          exact List.mem_append_right l₁ (List.mem_cons_self p l₂)
        have := List.find?_eq_none.mp hf p hmem
        simp [hpp] at this
    · constructor
      · intro _ q hq
        simpa using List.find?_eq_none.mp hf q hq
      · intro _
        rfl

/-- Witness for C1: with only "/a.tsx" in the VFS, the specifier "/a" probes
past the absent exact candidate and resolves to "/a.tsx". -/
theorem customRequire_probe_semantics_witness :
    customRequireResolve [("/a.tsx", "export default 1")] "/i.tsx" "/a" =
      ResolveOutcome.found "/a.tsx" := by
  have h := (customRequire_probe_semantics [("/a.tsx", "export default 1")]
    "/i.tsx" "/a" (by decide)).1 "/a.tsx"
  exact h.mpr ⟨["/a"], ["/a.ts", "/a/index.tsx", "/a/index.ts"], by decide, by decide,
    by decide⟩

/-! ## Boot-critical paths and the file explorer's delete control -/

/-- JS `s.startsWith(pre)`. -/
def strStartsWith (pre s : String) : Bool :=
  pre.data.isPrefixOf s.data

/-- A path with the reserved boot prefix, as tested throughout the kernel's
file explorer: `path.startsWith('/boot/')`. -/
def isBootCritical (p : String) : Bool :=
  strStartsWith "/boot/" p

/-- The file explorer renders a delete control for a row exactly under the
condition `!path.startsWith('/boot/')` guarding the delete button. -/
def deleteButtonShown (p : String) : Bool :=
  !(strStartsWith "/boot/" p)

/-- C3 counterexample: a Delete evolution targeting the boot-critical path
"/boot/kernel.tsx" is applied by handleEvolveRequest and removes the path
from the VFS, so evolution can delete a boot-critical path. -/
theorem bootCritical_delete_counterexample :
    isBootCritical "/boot/kernel.tsx" = true ∧
    vfsHas [("/boot/kernel.tsx", "kernel")] "/boot/kernel.tsx" = true ∧
    applyEvolution [("/boot/kernel.tsx", "kernel")]
        { action := "DELETE", filePath := "/boot/kernel.tsx", code := "" } =
      Except.ok (vfsDelete [("/boot/kernel.tsx", "kernel")] "/boot/kernel.tsx") ∧
    vfsHas (vfsDelete [("/boot/kernel.tsx", "kernel")] "/boot/kernel.tsx")
        "/boot/kernel.tsx" = false :=
  ⟨by decide, by decide, rfl, by decide⟩

/-- C3 amended: the boot-critical protection is only in the display layer:
the file explorer shows no delete control for a path with the reserved
prefix, but applying a Delete evolution to such a path succeeds and removes
it from the VFS. -/
theorem bootCritical_delete_ui_only (vfs : VFS) (p : String)
    (h : isBootCritical p = true) :
    deleteButtonShown p = false ∧
    applyEvolution vfs { action := "DELETE", filePath := p, code := "" } =
      Except.ok (vfsDelete vfs p) ∧
    vfsHas (vfsDelete vfs p) p = false := by
  refine ⟨?_, applyEvolution_delete vfs p "", vfsHas_vfsDelete_self vfs p⟩
  unfold deleteButtonShown
  unfold isBootCritical at h
  rw [h]
  rfl

/-- Witness for C3 amended at the seed path "/boot/bootloader.tsx". -/
theorem bootCritical_delete_ui_only_witness :
    deleteButtonShown "/boot/bootloader.tsx" = false ∧
    applyEvolution [("/boot/bootloader.tsx", "os")]
        { action := "DELETE", filePath := "/boot/bootloader.tsx", code := "" } =
      Except.ok (vfsDelete [("/boot/bootloader.tsx", "os")] "/boot/bootloader.tsx") ∧
    vfsHas (vfsDelete [("/boot/bootloader.tsx", "os")] "/boot/bootloader.tsx")
        "/boot/bootloader.tsx" = false :=
  bootCritical_delete_ui_only [("/boot/bootloader.tsx", "os")] "/boot/bootloader.tsx"
    (by decide)

/-! ## The live-preview bundle's internal resolver

From the kernel's LivePreview bundle: `resolvePath` plus the presence check
of its `require`, with the two external capability names checked first. -/

/-- JS `s.endsWith(suffix)`. -/
def endsWithStr (suffix s : String) : Bool :=
  suffix.data.isSuffixOf s.data

/-- Key presence in the bundle's `modules` object. -/
def hasModule (modules : List String) (p : String) : Bool :=
  modules.any (fun m => decide (m = p))

/-- The stack computation of the bundle's resolvePath: the base path split on
slashes without its last piece, then each piece of the relative specifier
pops on a double dot, is dropped on a single dot, and is pushed otherwise. -/
def innerStackPath (base rel : String) : String :=
  String.intercalate "/"
    ((splitSlash rel).foldl
      (fun st part =>
        if part = ".." then st.dropLast
        else if part = "." then st else st ++ [part])
      ((splitSlash base).dropLast))

/-- The extension step of the bundle's resolvePath: when the path carries no
.tsx or .ts extension, append ".tsx" or ".ts" when that key is a module. -/
def extProbe (modules : List String) (path : String) : String :=
  if endsWithStr ".tsx" path || endsWithStr ".ts" path then path
  else if hasModule modules (path ++ ".tsx") then path ++ ".tsx"
  else if hasModule modules (path ++ ".ts") then path ++ ".ts"
  else path

/-- The bundle's resolvePath: a specifier that does not start with a dot is
returned verbatim; otherwise the stack-resolved path with the extension step. -/
def innerResolvePath (modules : List String) (base rel : String) : String :=
  if !(strStartsWith "." rel) then rel
  else extProbe modules (innerStackPath base rel)

/-- The outcome of the bundle's require lookup. -/
inductive InnerRequireResult where
  | external (name : String)
  | found (path : String)
  | notFound (path importer : String)
deriving DecidableEq

/-- The bundle's require, up to the module-cache step: the two allow-listed
external names short-circuit; otherwise the resolved path must be a module
key or the module-not-found error is thrown. -/
def innerRequire (modules : List String) (path rel : String) : InnerRequireResult :=
  if rel = "react" then InnerRequireResult.external "react"
  else if rel = "@google/genai" then InnerRequireResult.external "@google/genai"
  else
    let abs := innerResolvePath modules path rel
    if hasModule modules abs then InnerRequireResult.found abs
    else InnerRequireResult.notFound abs path

theorem extProbe_cases (modules : List String) (path : String) :
    extProbe modules path = path ∨ extProbe modules path = path ++ ".tsx" ∨
      extProbe modules path = path ++ ".ts" := by
  unfold extProbe
  split
  · exact Or.inl rfl
  · split
    · exact Or.inr (Or.inl rfl)
    · split
      · exact Or.inr (Or.inr rfl)
      · exact Or.inl rfl

/-- C4 counterexample: on the VFS holding exactly "/a.tsx", the outer loader
resolves the non-relative specifier "/a" to "/a.tsx", while the bundle's
internal resolver returns "/a" verbatim and fails to find a module; the two
resolutions are not extensionally equal. -/
theorem innerResolve_differs_counterexample :
    customRequireResolve [("/a.tsx", "code")] "/index.tsx" "/a" =
      ResolveOutcome.found "/a.tsx" ∧
    innerRequire ["/a.tsx"] "/index.tsx" "/a" =
      InnerRequireResult.notFound "/a" "/index.tsx" :=
  ⟨by decide, by decide⟩

/-- C4 amended: the bundle's internal resolution is not identical to the
outer loader's five-candidate probing: a specifier that does not start with a
dot is looked up verbatim with no probing at all, and a found module for any
specifier is always the verbatim specifier, the stack-resolved base, or that
base with ".tsx" or ".ts" appended — never an index candidate. -/
theorem innerRequire_characterization (modules : List String) (path rel : String)
    (h1 : rel ≠ "react") (h2 : rel ≠ "@google/genai") :
    (strStartsWith "." rel = false →
      innerRequire modules path rel =
        (if hasModule modules rel then InnerRequireResult.found rel
         else InnerRequireResult.notFound rel path)) ∧
    (∀ p, innerRequire modules path rel = InnerRequireResult.found p →
      hasModule modules p = true ∧
      (p = rel ∨ p = innerStackPath path rel ∨
        p = innerStackPath path rel ++ ".tsx" ∨
        p = innerStackPath path rel ++ ".ts")) := by
  unfold innerRequire
  rw [if_neg h1, if_neg h2]
  constructor
  · intro hns
    unfold innerResolvePath
    rw [hns]
    rfl
  · intro p hp
    simp only at hp
    by_cases hsw : strStartsWith "." rel = true
    · have habs : innerResolvePath modules path rel =
          extProbe modules (innerStackPath path rel) := by
        unfold innerResolvePath
        rw [hsw]
        rfl
      rw [habs] at hp
      split at hp
      · rename_i hm
        injection hp with hpe
        subst hpe
        refine ⟨hm, ?_⟩
        rcases extProbe_cases modules (innerStackPath path rel) with h | h | h <;>
          rw [h] <;> simp
      · exact absurd hp (by simp)
    · have habs : innerResolvePath modules path rel = rel := by
        unfold innerResolvePath
        rw [Bool.not_eq_true] at hsw
        rw [hsw]
        rfl
      rw [habs] at hp
      split at hp
      · rename_i hm
        injection hp with hpe
        subst hpe
        exact ⟨hm, Or.inl rfl⟩
      · exact absurd hp (by simp)

/-- Witness for C4 amended: a dotless specifier equal to a module key is
found verbatim. -/
theorem innerRequire_characterization_witness :
    innerRequire ["/x.tsx"] "/index.tsx" "/x" =
      (if hasModule ["/x.tsx"] "/x" then InnerRequireResult.found "/x"
       else InnerRequireResult.notFound "/x" "/index.tsx") :=
  (innerRequire_characterization ["/x.tsx"] "/index.tsx" "/x" (by decide)
    (by decide)).1 (by decide)

/-! ## The stateful loader: customRequire with the per-run module cache

Module bodies are abstracted as the sequence of require specifiers they
issue; exports objects are identified by allocation number (object identity),
with 0 reserved for the injected React capability. As in the source, the
cache cell is inserted before the body runs. The state also carries ghost
instrumentation: the bodies executed in order, and a trace recording for
every require return the importer, the specifier and the identity of the
returned exports object. -/

/-- A program: each path's body as the sequence of specifiers it requires. -/
abbrev Prog := List (String × List String)

/-- The presence view of a program (contents are irrelevant to probing). -/
def progVFS (prog : Prog) : VFS :=
  prog.map (fun e => (e.1, ""))

/-- The loader state: the module cache mapping resolved paths to exports
identities, the next fresh identity, the bodies executed so far in order, and
the trace of require returns. -/
structure LoadState where
  cache : List (String × Nat)
  nextId : Nat
  bodiesRun : List String
  events : List (String × String × Nat)
deriving DecidableEq

/-- The fresh state of one bootstrap pass (`const moduleCache = {}`). -/
def initLoadState : LoadState :=
  { cache := [], nextId := 1, bodiesRun := [], events := [] }

mutual

/-- One customRequire call, with fuel bounding the recursion depth: resolve
the specifier, return the cached exports identity on a hit (even while the
module is still executing), otherwise allocate a fresh exports object, insert
the cell BEFORE running the body, run the body, and return the identity. -/
def customRequire (prog : Prog) : Nat → LoadState → String → String →
    Option (LoadState × Nat)
  | 0, _, _, _ => none
  | fuel + 1, st, importer, spec =>
    if spec = "react" then
      some ({ st with events := st.events ++ [(importer, spec, 0)] }, 0)
    else
      match customRequireResolve (progVFS prog) importer spec with
      | ResolveOutcome.found path =>
        match st.cache.find? (fun e => decide (e.1 = path)) with
        | some cell =>
          some ({ st with events := st.events ++ [(importer, spec, cell.2)] }, cell.2)
        | none =>
          let fresh := st.nextId
          let body :=
            ((prog.find? (fun e => decide (e.1 = path))).map (fun e => e.2)).getD []
          let st1 : LoadState :=
            { cache := st.cache ++ [(path, fresh)], nextId := fresh + 1,
              bodiesRun := st.bodiesRun ++ [path], events := st.events }
          match runBody prog fuel st1 path body with
          | none => none
          | some st2 =>
            some ({ st2 with events := st2.events ++ [(importer, spec, fresh)] }, fresh)
      | _ => none

/-- Run a module body: issue its require calls in order, threading the state;
each nested call is scoped to the module's own resolved path. -/
def runBody (prog : Prog) : Nat → LoadState → String → List String → Option LoadState
  | 0, _, _, _ => none
  | _ + 1, st, _, [] => some st
  | fuel + 1, st, path, s :: rest =>
    match customRequire prog fuel st path s with
    | none => none
    | some (st1, _) => runBody prog fuel st1 path rest

end

/-- The circular-import test program: "/a" requires "/b" and "/b" requires
"/a". -/
def cycleProg : Prog := [("/a", ["/b"]), ("/b", ["/a"])]

/-- C2: loading "/a" over the two-module cycle terminates; each of the two
bodies executes exactly once; the require of "/a" issued from inside "/b"
during "/b"'s execution returns exports identity 1, and the final cache maps
"/a" to that same identity 1 — the observed exports object is identity-equal
to "/a"'s final exports object, because the cell for "/a" was inserted into
the cache before its body executed. -/
theorem cycle_load_shared_exports :
    ∃ st : LoadState,
      customRequire cycleProg 8 initLoadState "/a" "/a" = some (st, 1) ∧
      st.bodiesRun = ["/a", "/b"] ∧
      st.bodiesRun.count "/a" = 1 ∧
      st.bodiesRun.count "/b" = 1 ∧
      ("/b", "/a", 1) ∈ st.events ∧
      st.cache.find? (fun e => decide (e.1 = "/a")) = some ("/a", 1) :=
  ⟨{ cache := [("/a", 1), ("/b", 2)], nextId := 3, bodiesRun := ["/a", "/b"],
      events := [("/b", "/a", 1), ("/a", "/b", 2), ("/a", "/a", 1)] },
    by decide, by decide, by decide, by decide, by decide, by decide⟩

/-! ## The multi-target batch apply -/

/-- Modelled from the spec: the multi-target batch apply `onVfsBatchUpdate`
that the kernel's handleEvolve invokes on the validated changes list is
implemented by the stage that instantiates this kernel, which is not among
the repository's files; per the spec it upserts every listed
`{path, content}` whole-file replacement, in order. -/
def onVfsBatchUpdate (vfs : VFS) (changes : List (String × String)) : VFS :=
  changes.foldl (fun v pc => vfsSet v pc.1 pc.2) vfs

theorem vfsGet_batch_not_mem :
    ∀ (changes : List (String × String)) (vfs : VFS) (q : String),
      q ∉ changes.map Prod.fst →
      vfsGet (onVfsBatchUpdate vfs changes) q = vfsGet vfs q := by
  intro changes
  induction changes with
  | nil => intro vfs q _; rfl
  | cons a t ih =>
    intro vfs q h
    rw [List.map_cons, List.mem_cons] at h
    push_neg at h
    obtain ⟨hq, ht⟩ := h
    show vfsGet (onVfsBatchUpdate (vfsSet vfs a.1 a.2) t) q = vfsGet vfs q
    rw [ih (vfsSet vfs a.1 a.2) q ht]
    exact vfsGet_vfsSet_ne vfs a.1 a.2 q hq

theorem vfsGet_batch_mem :
    ∀ (changes : List (String × String)) (vfs : VFS) (p c : String),
      (p, c) ∈ changes → (changes.map Prod.fst).Nodup →
      vfsGet (onVfsBatchUpdate vfs changes) p = some c := by
  intro changes
  induction changes with
  | nil => intro vfs p c hmem _; cases hmem
  | cons a t ih =>
    intro vfs p c hmem hnd
    rw [List.map_cons, List.nodup_cons] at hnd
    obtain ⟨hna, hndt⟩ := hnd
    rcases List.mem_cons.mp hmem with heq | hmt
    · have ha1 : a.1 = p := by rw [← heq]
      have ha2 : a.2 = c := by rw [← heq]
      show vfsGet (onVfsBatchUpdate (vfsSet vfs a.1 a.2) t) p = some c
      rw [ha1, ha2, vfsGet_batch_not_mem t (vfsSet vfs p c) p (ha1 ▸ hna)]
      exact vfsGet_vfsSet_self vfs p c
    · exact ih (vfsSet vfs a.1 a.2) p c hmt hndt

/-- C8: a multi-target apply of changes with pairwise-distinct paths maps
each listed path to its listed content, leaves every unlisted path as
before, and its result is independent, path by path, of the order of the
changes. -/
theorem batch_apply_frame (vfs : VFS) (changes : List (String × String))
    (hnd : (changes.map Prod.fst).Nodup) :
    (∀ p c, (p, c) ∈ changes → vfsGet (onVfsBatchUpdate vfs changes) p = some c) ∧
    (∀ q, q ∉ changes.map Prod.fst →
      vfsGet (onVfsBatchUpdate vfs changes) q = vfsGet vfs q) ∧
    (∀ changes', changes.Perm changes' →
      ∀ q, vfsGet (onVfsBatchUpdate vfs changes) q =
        vfsGet (onVfsBatchUpdate vfs changes') q) := by
  refine ⟨fun p c h => vfsGet_batch_mem changes vfs p c h hnd,
    fun q h => vfsGet_batch_not_mem changes vfs q h, ?_⟩
  intro l' hperm q
  have hnd' : (l'.map Prod.fst).Nodup := (hperm.map Prod.fst).nodup_iff.mp hnd
  by_cases hq : q ∈ changes.map Prod.fst
  · obtain ⟨e, he, heq⟩ := List.mem_map.mp hq
    have he' : e ∈ l' := hperm.mem_iff.mp he
    have h1 : vfsGet (onVfsBatchUpdate vfs changes) q = some e.2 := by
      have := vfsGet_batch_mem changes vfs e.1 e.2 (by simpa using he) hnd
      rw [heq] at this
      exact this
    have h2 : vfsGet (onVfsBatchUpdate vfs l') q = some e.2 := by
      have := vfsGet_batch_mem l' vfs e.1 e.2 (by simpa using he') hnd'
      rw [heq] at this
      exact this
    rw [h1, h2]
  · have hq' : q ∉ l'.map Prod.fst := fun hc => hq ((hperm.map Prod.fst).mem_iff.mpr hc)
    rw [vfsGet_batch_not_mem changes vfs q hq, vfsGet_batch_not_mem l' vfs q hq']

/-- Witness for C8: two distinct-path changes applied over a one-file VFS,
in both orders. -/
theorem batch_apply_frame_witness :
    vfsGet (onVfsBatchUpdate [("/z", "0")] [("/p", "1"), ("/q", "2")]) "/p" = some "1" ∧
    vfsGet (onVfsBatchUpdate [("/z", "0")] [("/p", "1"), ("/q", "2")]) "/q" = some "2" ∧
    vfsGet (onVfsBatchUpdate [("/z", "0")] [("/p", "1"), ("/q", "2")]) "/z" =
      vfsGet [("/z", "0")] "/z" ∧
    vfsGet (onVfsBatchUpdate [("/z", "0")] [("/p", "1"), ("/q", "2")]) "/p" =
      vfsGet (onVfsBatchUpdate [("/z", "0")] [("/q", "2"), ("/p", "1")]) "/p" :=
  have h := batch_apply_frame [("/z", "0")] [("/p", "1"), ("/q", "2")] (by decide)
  ⟨h.1 "/p" "1" (by decide), h.1 "/q" "2" (by decide), h.2.1 "/z" (by decide),
    h.2.2 [("/q", "2"), ("/p", "1")] (List.Perm.swap ("/q", "2") ("/p", "1") []) "/p"⟩

/-! ## The BIOS sanitizer -/

/-- The hex-digit class of the sanitizer's regex. -/
def isHexDigitChar (c : Char) : Bool :=
  c.isDigit || ('a' ≤ c && c ≤ 'f') || ('A' ≤ c && c ≤ 'F')

/-- The negative lookahead of the sanitizer's regex, affirmed: the characters
after a backslash begin a valid escape continuation — one of n t quote
double-quote backslash slash, or u followed by four hex digits. -/
def isValidEscapeStart : List Char → Bool
  | [] => false
  | c :: rest =>
    if c = 'n' || c = 't' || c = '\'' || c = '"' || c = '\\' || c = '/' then true
    else if c = 'u' then
      match rest with
      | a :: b :: d :: e :: _ =>
        isHexDigitChar a && isHexDigitChar b && isHexDigitChar d && isHexDigitChar e
      | _ => false
    else false

/-- One pass of the global regex replace over the characters: each backslash
whose successors do not begin a valid escape is doubled, all else is kept. -/
def sanitizeChars : List Char → List Char
  | [] => []
  | c :: rest =>
    if decide (c = '\\') && !(isValidEscapeStart rest) then
      '\\' :: '\\' :: sanitizeChars rest
    else c :: sanitizeChars rest

/-- The BIOS sanitizer `sanitizeCodeForBabel`. -/
def sanitizeCodeForBabel (code : String) : String :=
  String.mk (sanitizeChars code.data)

/-- Every backslash of the character list begins a valid escape continuation. -/
def allEscapesValid : List Char → Bool
  | [] => true
  | c :: rest =>
    (!(decide (c = '\\')) || isValidEscapeStart rest) && allEscapesValid rest

theorem length_le_sanitizeChars (s : List Char) :
    s.length ≤ (sanitizeChars s).length := by
  induction s with
  | nil => exact Nat.le_refl 0
  | cons c rest ih =>
    unfold sanitizeChars
    split
    · exact Nat.le_trans (Nat.succ_le_succ ih) (Nat.le_succ _)
    · exact Nat.succ_le_succ ih

theorem sanitizeChars_of_valid (s : List Char) (h : allEscapesValid s = true) :
    sanitizeChars s = s := by
  induction s with
  | nil => rfl
  | cons c rest ih =>
    unfold allEscapesValid at h
    rw [Bool.and_eq_true] at h
    obtain ⟨hc, hrest⟩ := h
    unfold sanitizeChars
    have hguard : (decide (c = '\\') && !(isValidEscapeStart rest)) = false := by
      cases hdc : decide (c = '\\') with
      | false => simp
      | true =>
        rw [hdc] at hc
        simp only [Bool.not_true, Bool.false_or] at hc
        simp [hc]
    rw [hguard]
    simp only [Bool.false_eq_true, if_false]
    rw [ih hrest]

theorem valid_of_sanitizeChars_eq (s : List Char) (h : sanitizeChars s = s) :
    allEscapesValid s = true := by
  induction s with
  | nil => rfl
  | cons c rest ih =>
    unfold sanitizeChars at h
    by_cases hg : (decide (c = '\\') && !(isValidEscapeStart rest)) = true
    · rw [if_pos hg] at h
      exfalso
      have hc : c = '\\' := of_decide_eq_true ((Bool.and_eq_true ..).mp hg).1
      rw [hc] at h
      injection h with _ htail
      have hlen := length_le_sanitizeChars rest
      have hlen2 : rest.length = (sanitizeChars rest).length + 1 := by
        conv_lhs => rw [← htail]
        rfl
      omega
    · rw [if_neg hg] at h
      injection h with _ htail
      have hrest := ih htail
      unfold allEscapesValid
      rw [Bool.and_eq_true]
      refine ⟨?_, hrest⟩
      cases hdc : decide (c = '\\') with
      | false => simp
      | true =>
        rw [hdc] at hg
        simp only [Bool.true_and, Bool.not_eq_true] at hg
        have hv : isValidEscapeStart rest = true := by simpa using hg
        simp [hv]

theorem sanitizeChars_eq_self_iff (s : List Char) :
    sanitizeChars s = s ↔ allEscapesValid s = true :=
  ⟨valid_of_sanitizeChars_eq s, sanitizeChars_of_valid s⟩

/-- C9 counterexample: the sanitizer is not idempotent: one pass over a lone
invalid backslash doubles it, and a second pass doubles the freshly produced
second backslash again, giving a different string. -/
theorem sanitize_not_idempotent_counterexample :
    sanitizeCodeForBabel "\\x" = "\\\\x" ∧
    sanitizeCodeForBabel (sanitizeCodeForBabel "\\x") = "\\\\\\x" ∧
    decide (sanitizeCodeForBabel (sanitizeCodeForBabel "\\x") =
      sanitizeCodeForBabel "\\x") = false :=
  ⟨by decide, by decide, by decide⟩

/-- C9 amended: the sanitizer is the identity exactly on the strings whose
every backslash begins a valid escape continuation; on other strings it
doubles the offending backslashes, and is then not idempotent in general,
since a doubled backslash directly before an offending successor is doubled
again by a second pass. -/
theorem sanitize_identity_iff_valid (s : String) :
    sanitizeCodeForBabel s = s ↔ allEscapesValid s.data = true := by
  obtain ⟨data⟩ := s
  unfold sanitizeCodeForBabel
  constructor
  · intro h
    have hd : sanitizeChars data = data := congrArg String.data h
    exact (sanitizeChars_eq_self_iff data).mp hd
  · intro h
    have hd : sanitizeChars data = data := (sanitizeChars_eq_self_iff data).mpr h
    rw [hd]

/-! ## BIOS startup: loading the persisted VFS -/

/-- The paths of the built-in seed tree INITIAL_PROJECT. -/
def INITIAL_PROJECT_PATHS : List String :=
  ["/boot/bootloader.tsx", "/boot/kernel.tsx", "/components/FileExplorer.tsx",
    "/components/Editor.tsx", "/components/EvolveIcon.tsx",
    "/components/LoadingSpinner.tsx"]

/-- The BIOS useState initializer: read the persisted value (the read itself
may throw), and return the parsed object; a throw anywhere in the try block,
an absent key, or a falsy (empty) stored string falls back to the built-in
seed tree, passed as `seed`; a parse failure is a throw. -/
def loadProjectFiles (seed : VFS) (stored : Except String (Option String))
    (parse : String → Option VFS) : VFS :=
  match stored with
  | Except.error _ => seed
  | Except.ok none => seed
  | Except.ok (some s) =>
    if s = "" then seed
    else
      match parse s with
      | some v => v
      | none => seed

/-- C10: when the persisted read fails, the key is absent, or the stored
value does not parse, the application starts from the seed tree instead of
failing. -/
theorem load_falls_back_to_seed (seed : VFS) (stored : Except String (Option String))
    (parse : String → Option VFS)
    (h : (∃ msg, stored = Except.error msg) ∨ stored = Except.ok none ∨
      (∃ s, stored = Except.ok (some s) ∧ parse s = none)) :
    loadProjectFiles seed stored parse = seed := by
  rcases h with ⟨msg, rfl⟩ | rfl | ⟨s, rfl, hp⟩
  · rfl
  · rfl
  · simp only [loadProjectFiles]
    by_cases hs : s = ""
    · rw [if_pos hs]
    · rw [if_neg hs, hp]

/-- Witness for C10: an unparseable stored value yields the seed tree. -/
theorem load_falls_back_to_seed_witness :
    loadProjectFiles [("/boot/bootloader.tsx", "os")] (Except.ok (some "not json"))
      (fun _ => none) = [("/boot/bootloader.tsx", "os")] :=
  load_falls_back_to_seed [("/boot/bootloader.tsx", "os")] (Except.ok (some "not json"))
    (fun _ => none) (Or.inr (Or.inr ⟨"not json", rfl, rfl⟩))

end SelfEvolveWeb
